import Mathlib

/-!
Verification development for the Syncterra media-catalog backend
(`backend/core/scanner.py` and `backend/core/syncer.py`).

Python strings are modelled as `List Char` (named `Str`), paths included;
`os.sep` is `'/'` (the backend targets a POSIX filesystem).  Machine side
effects (filesystem walk results, tag-reader libraries, subprocess calls)
are passed in explicitly as data or as oracle functions, and Python
exceptions of the modelled library calls are `Except` values.
-/

namespace Syncterra

abbrev Str := List Char

/-- Python `s.rstrip("/")`: drop trailing `'/'` characters. -/
def rstripSep (s : Str) : Str :=
  (s.reverse.dropWhile (fun c => c = '/')).reverse

/-- Python `s.strip()`: drop leading and trailing whitespace. -/
def pyStrip (s : Str) : Str :=
  ((s.dropWhile Char.isWhitespace).reverse.dropWhile Char.isWhitespace).reverse

/-- The part of `p` up to and including the last `'/'` (empty when `p` has
no `'/'`).  This is Python `p[:p.rfind("/") + 1]`, the raw head computed
inside `posixpath.dirname`. -/
def dirnameRaw : Str → Str
  | [] => []
  | c :: cs =>
    if '/' ∈ cs then c :: dirnameRaw cs
    else if c = '/' then ['/'] else []

/-- The part of `p` after the last `'/'`; Python `posixpath.basename`. -/
def basenameL : Str → Str
  | [] => []
  | c :: cs =>
    if '/' ∈ cs then basenameL cs
    else if c = '/' then cs else c :: cs

/-- Python `posixpath.dirname`: the raw head, right-stripped of `'/'`
unless it is empty or consists solely of separators. -/
def pyDirname (p : Str) : Str :=
  let head := dirnameRaw p
  if head ≠ [] ∧ ¬ head.all (fun c => c = '/') then rstripSep head else head

/-- The suffix of `l` starting at the last occurrence of `sep`
(inclusive); empty when `sep` does not occur. -/
def suffixFromLastIncl (sep : Char) : Str → Str
  | [] => []
  | c :: cs =>
    if sep ∈ cs then suffixFromLastIncl sep cs
    else if c = sep then sep :: cs else []

/-- Python `os.path.splitext(p)[1]`: the extension of the basename of
`p`, where leading dots of the basename do not start an extension. -/
def splitextExt (p : Str) : Str :=
  let base := basenameL p
  suffixFromLastIncl '.' (base.dropWhile (fun c => c = '.'))

/-- Python `s.lower()` (ASCII is what the scanner compares). -/
def lowerStr (s : Str) : Str := s.map Char.toLower

/-- Python `full_path[len(base_dir):] if full_path.startswith(base_dir)
else full_path` (scanner.py lines 234-238). -/
def relAfterBase (baseDir fullPath : Str) : Str :=
  if baseDir <+: fullPath then fullPath.drop baseDir.length else fullPath

/-- Python `if not rel_path.startswith(os.sep): rel_path = os.sep +
rel_path` (scanner.py lines 239-240). -/
def forceLeadingSep (relPath : Str) : Str :=
  if relPath.take 1 = ['/'] then relPath else '/' :: relPath

/-- Relative-path computation of `ScannerService._scan_filesystem`
(scanner.py lines 228-240): strip trailing separators from the configured
root, take the parent directory of the result, cut that prefix off the
absolute path, and force a leading separator. -/
def computeRelPath (rootPath fullPath : Str) : Str :=
  forceLeadingSep (relAfterBase (pyDirname (rstripSep rootPath)) fullPath)

/-! Catalog data model (`backend/db/models.py`, class `Track`).  The
DB-generated `id` is omitted; `file_path` is the unique key (the column
is declared `unique=True`).  Datetimes are modelled as integers. -/

structure Track where
  file_path : Str
  relative_path : Str
  file_name : Str
  title : Option Str
  artist : Option Str
  album_artist : Option Str
  composer : Option Str
  album : Option Str
  track_num : Option Str
  codec : Option Str
  msg : Option Str
  duration : Option Int
  size : Option Int
  sync : Bool
  missing : Bool
  added_date : Int
  last_modified : Int
deriving DecidableEq

/-- The dict returned by `ScannerService._extract_metadata` (its fixed key
set, scanner.py lines 253-264). -/
structure Meta where
  file_name : Str
  title : Option Str
  artist : Option Str
  album_artist : Option Str
  composer : Option Str
  album : Option Str
  track_num : Option Str
  codec : Option Str
  msg : Option Str
  duration : Option Int
deriving DecidableEq

/-- One `(full_path, rel_path, mtime)` tuple produced by
`ScannerService._scan_filesystem`. -/
structure WalkedFile where
  path : Str
  rel : Str
  mtime : Int
deriving DecidableEq

/-- The `for key, value in meta.items(): setattr(track_in_db, key, value)`
loop (scanner.py lines 132-133): every key of the metadata dict is written
onto the row, `msg` included. -/
def applyMeta (m : Meta) (t : Track) : Track :=
  { t with
    file_name := m.file_name
    title := m.title
    artist := m.artist
    album_artist := m.album_artist
    composer := m.composer
    album := m.album
    track_num := m.track_num
    duration := m.duration
    codec := m.codec
    msg := m.msg }

/-- The `if track_in_db.missing:` block (scanner.py lines 118-120). -/
def clearMissing (t : Track) : Track :=
  if t.missing then { t with missing := false } else t

/-- The walked-file branch for an existing row (scanner.py lines 113-151):
clear `missing` if set; if the stored modification time differs,
re-extract metadata, overwrite the fields, set the new modification time,
clear `msg`, and count one update; if the stored relative path differs,
rewrite it, counting one update only when the metadata update did not
already count.  (`if meta:` on line 131 is always true: the dict returned
by `_extract_metadata` is never empty.)  Returns the mutated row and the
increment of `updated_count`. -/
def scanExisting (extract : Str → Meta) (f : WalkedFile) (t0 : Track) : Track × Nat :=
  let t := clearMissing t0
  if t.last_modified = f.mtime then
    if t.relative_path = f.rel then (t, 0)
    else ({ t with relative_path := f.rel }, 1)
  else
    let t1 : Track :=
      { applyMeta (extract f.path) t with
        last_modified := f.mtime
        msg := none }
    if t.relative_path = f.rel then (t1, 1)
    else ({ t1 with relative_path := f.rel }, 1)

/-- The `Track` row inserted for a new file (scanner.py lines 156-164). -/
def newTrackOf (m : Meta) (f : WalkedFile) (now : Int) : Track :=
  { file_path := f.path, relative_path := f.rel, file_name := m.file_name,
    title := m.title, artist := m.artist, album_artist := m.album_artist,
    composer := m.composer, album := m.album, track_num := m.track_num,
    codec := m.codec, msg := m.msg, duration := m.duration, size := none,
    sync := false, missing := false, added_date := now, last_modified := f.mtime }

/-- Lookup in the path-keyed row collection (`existing_tracks.get`). -/
def getEntry (l : List Track) (p : Str) : Option Track :=
  l.find? (fun t => t.file_path == p)

/-- In-flight state of one scan pass: the rows loaded into
`existing_tracks` (mutated in place), the rows added with `db.add`, and
the two loop counters. -/
structure ScanState where
  existing : List Track
  added : List Track
  addedCount : Nat
  updatedCount : Nat

/-- Body of the `for file_path, rel_path, mtime in files_to_process` loop
(scanner.py lines 107-170), acting on one walked file.  A hit in
`existing_tracks` mutates that row in place; a miss extracts metadata and
adds a new row (which does not enter `existing_tracks`). -/
def processWalked (extract : Str → Meta) (now : Int) (st : ScanState)
    (f : WalkedFile) : ScanState :=
  match getEntry st.existing f.path with
  | some t0 =>
    { st with
      existing := st.existing.map
        (fun x => if x.file_path == f.path then (scanExisting extract f x).1 else x),
      updatedCount := st.updatedCount + (scanExisting extract f t0).2 }
  | none =>
    { st with
      added := st.added ++ [newTrackOf (extract f.path) f now],
      addedCount := st.addedCount + 1 }

/-- The mark-missing sweep applied to one pre-existing row (scanner.py
lines 181-192): a row whose path was not observed and is not already
flagged gets `missing = True`. -/
def markMissingTrack (scanned : List Str) (t : Track) : Track :=
  if scanned.contains t.file_path || t.missing then t
  else { t with missing := true }

/-- Number of rows freshly flagged missing by the sweep. -/
def missingCountOf (scanned : List Str) (l : List Track) : Nat :=
  (l.filter (fun t => !(scanned.contains t.file_path) && !t.missing)).length

/-- Result of one scan pass: the catalog rows after commit and the three
summary counters. -/
structure ScanResult where
  catalog : List Track
  addedCount : Nat
  updatedCount : Nat
  missingCount : Nat
deriving DecidableEq

/-- One full reconciliation pass of `ScannerService.run_scan` (scanner.py
lines 99-198) over a materialized walk result: process every walked file
against the loaded rows, then sweep the loaded rows for missing paths.
`catalog` is the loaded row set keyed by the unique `file_path`. -/
def runScanPass (extract : Str → Meta) (now : Int) (catalog : List Track)
    (files : List WalkedFile) : ScanResult :=
  let st := files.foldl (processWalked extract now) ⟨catalog, [], 0, 0⟩
  let scanned := files.map (fun f => f.path)
  { catalog := st.existing.map (markMissingTrack scanned) ++ st.added,
    addedCount := st.addedCount,
    updatedCount := st.updatedCount,
    missingCount := missingCountOf scanned st.existing }

/-- The final summary line (scanner.py line 198). -/
def scanSummary (a u m : Nat) : Str :=
  "Scan complete. Added: ".data ++ (toString a).data
    ++ ", Updated: ".data ++ (toString u).data
    ++ ", Missing: ".data ++ (toString m).data

/-- Metadata record used by the concrete scan scenarios below. -/
def metaX : Meta :=
  { file_name := "x".data
    title := none
    artist := none
    album_artist := none
    composer := none
    album := none
    track_num := none
    codec := none
    msg := none
    duration := none }

/-- Catalog row used by the concrete scan scenarios below. -/
def trackA : Track :=
  { file_path := "/lib/a.mp3".data
    relative_path := "/lib/a.mp3".data
    file_name := "a".data
    title := some "T".data
    artist := none
    album_artist := none
    composer := none
    album := none
    track_num := none
    codec := some "mp3".data
    msg := none
    duration := some 9
    size := none
    sync := true
    missing := false
    added_date := 3
    last_modified := 5 }

/-- Walked file used by the concrete idempotence scenario. -/
def wfA : WalkedFile :=
  { path := "/lib/a.mp3".data
    rel := "/lib/a.mp3".data
    mtime := 11 }

/-! Progress reporting of `run_scan` (scanner.py lines 89-91, 172-177,
194-195).  `int((processed_files / total_files) * 100)` is modelled as
Nat floor division `processed * 100 / total`; the loop state is
`(last_progress, values reported so far)`. -/

/-- One iteration's tail (scanner.py lines 172-177): after processing the
`k`-th file, report `current` iff it is at least `last_progress + 5` or
equals 100, and remember it as `last_progress`. -/
def progressStep (total : Nat) (st : Nat × List Nat) (k : Nat) : Nat × List Nat :=
  let current := k * 100 / total
  if st.1 + 5 ≤ current ∨ current = 100 then (current, st.2 ++ [current]) else st

/-- The full sequence of values passed to `progress_callback` during one
scan pass over `total` files, with the final 100 report (scanner.py lines
194-195). -/
def progressCalls (total : Nat) : List Nat :=
  let st := (List.range' 1 total).foldl (progressStep total) (0, [])
  st.2 ++ (if st.1 < 100 then [100] else [])

/-- Invariant of the progress loop: all reported values are at least 5,
consecutive reports grow by at least 5 or end at 100, the last report is
the remembered `last_progress`, and `last_progress` stays at most 100. -/
def ProgInv (st : Nat × List Nat) : Prop :=
  (∀ v ∈ st.2, 5 ≤ v)
  ∧ List.Chain' (fun a b => a + 5 ≤ b ∨ b = 100) st.2
  ∧ (st.2.getLast? = some st.1 ∨ (st.2 = [] ∧ st.1 = 0))
  ∧ st.1 ≤ 100

/-! Device syncer (`backend/core/syncer.py`). -/

/-- Python `s.replace("\\", "/")` (a single backslash character). -/
def normSlash (s : Str) : Str :=
  s.map (fun c => if c = '\\' then '/' else c)

/-- The key under which a sync-enabled row enters `local_map`
(syncer.py lines 110-118): slash-normalize the relative path (`os.sep` is
already `/`) and strip one leading slash. -/
def localKeyOf (t : Track) : Str :=
  let r := normSlash t.relative_path
  if r.take 1 = ['/'] then r.drop 1 else r

/-- The keys of `local_map`: one per track with `sync` set
(syncer.py line 106). -/
def localMapKeys (tracks : List Track) : List Str :=
  (tracks.filter (fun t => t.sync)).map localKeyOf

/-- The target-extension parse of `AudioSynchronizer.synchronize`
(syncer.py lines 81-82): split on commas, strip, put a dot in front. -/
def parseTargetExts (s : Str) : List Str :=
  (s.splitOn ',').map (fun e => '.' :: pyStrip e)

/-- The delete step of `AudioSynchronizer.synchronize` (syncer.py lines
134-140): the remote files on which `rm_remote` is invoked.  The loop
computes `ext = os.path.splitext(r_file)[1]` (line 137) but never tests
it: the only condition is `r_file not in local_map`. -/
def syncDeleteList (remoteFiles : List Str) (localKeys : List Str) : List Str :=
  remoteFiles.filter (fun r => !(localKeys.contains r))

/-- Ancestor-directory include lines generated for one synced track by
`RsyncSynchronizer.synchronize` (syncer.py lines 243-247): for each
proper prefix of the slash components, the joined prefix plus `/`. -/
def ancestorsOf (rel : Str) : List Str :=
  let parts := (normSlash rel).splitOn '/'
  (List.range' 1 (parts.length - 1)).map
    (fun i => (List.intercalate ['/'] (parts.take i)) ++ ['/'])

/-- The members of the `include_list` set written to the `--include-from`
file (syncer.py lines 239-248, 253-255): for every track with `sync`
set, its ancestor lines and its slash-normalized relative path; the set
is modelled as a list with set-membership semantics. -/
def includeLines (tracks : List Track) : List Str :=
  (tracks.filter (fun t => t.sync)).flatMap
    (fun t => ancestorsOf t.relative_path ++ [normSlash t.relative_path])

/-- The password mask applied before logging an rsync command (syncer.py
lines 325 and 395): every element equal to the configured password is
replaced by `***`.  A `none` password (Python `None`) masks nothing. -/
def maskCmd (password : Option Str) (cmd : List Str) : List Str :=
  cmd.map (fun c => if some c = password then "***".data else c)

/-- Python `f"ssh -p {port}"` plus the `-i` option when key
authentication is on and a key path is configured (syncer.py lines
308-310 and 377-379). -/
def sshOptsOf (port : Str) (useKey : Bool) (keyPath : Option Str) : Str :=
  "ssh -p ".data ++ port
    ++ (if useKey then
          match keyPath with
          | some kp => " -i ".data ++ kp
          | none => []
        else [])

/-- Python `f"{user}@{host}:{dest_path}"` or `f"{host}:{dest_path}"`
(syncer.py lines 314-317 and 383-386). -/
def remoteOf (user : Option Str) (host dest : Str) : Str :=
  match user with
  | some u => u ++ "@".data ++ host ++ ":".data ++ dest
  | none => host ++ ":".data ++ dest

/-- Python `"...".replace("//", "/")`: one left-to-right pass collapsing
each non-overlapping `//` occurrence (syncer.py line 391). -/
def replaceDoubleSlash : Str → Str
  | '/' :: '/' :: rest => '/' :: replaceDoubleSlash rest
  | c :: rest => c :: replaceDoubleSlash rest
  | [] => []

/-- The batch rsync command assembled by `RsyncSynchronizer.synchronize`
(syncer.py lines 271-322).  `none` models the early returns (key
authentication enabled with no key path or a missing key file, or no
authentication method at all); option-string settings model Python's
None-or-empty falsiness. -/
def rsyncBatchCmd (host user password keyPath : Option Str) (useKey keyExists : Bool)
    (port dest includePath : Str) (srcDirs : List Str) : Option (List Str) :=
  match host with
  | none =>
    some (["rsync".data, "-avz".data, "--delete-excluded".data,
      "--include-from".data, includePath, "--exclude=*".data] ++ srcDirs ++ [dest])
  | some h =>
    let pre? : Option (List Str) :=
      if useKey then
        match keyPath with
        | none => none
        | some _ => if keyExists then some [] else none
      else
        match password with
        | some pw => some (["sshpass".data, "-p".data, pw])
        | none => none
    match pre? with
    | none => none
    | some pre =>
      some (pre ++ ["rsync".data, "-avz".data, "--delete-excluded".data,
        "--include-from".data, includePath, "--exclude=*".data] ++ srcDirs
        ++ ["-e".data, sshOptsOf port useKey keyPath, remoteOf user h dest])

/-- The `Running rsync:` log line's command (syncer.py lines 324-326):
the built command with the password masked. -/
def rsyncBatchLogged (host user password keyPath : Option Str)
    (useKey keyExists : Bool) (port dest includePath : Str)
    (srcDirs : List Str) : Option (List Str) :=
  (rsyncBatchCmd host user password keyPath useKey keyExists port dest includePath
    srcDirs).map (maskCmd password)

/-- The per-file rsync command assembled by `RsyncSynchronizer.cp`
(syncer.py lines 348-404).  Unlike the batch path, a host with neither
key nor password does not return early. -/
def rsyncCpCmd (host user password keyPath : Option Str) (useKey keyExists : Bool)
    (port dest filepathFrom relativePathTo : Str) : Option (List Str) :=
  match host with
  | none =>
    some (["rsync".data, "-avz".data]
      ++ [filepathFrom, replaceDoubleSlash (dest ++ "/".data ++ relativePathTo)])
  | some h =>
    if useKey ∧ (keyPath = none ∨ keyExists = false) then none
    else
      let pre : List Str :=
        if useKey then []
        else
          match password with
          | some pw => ["sshpass".data, "-p".data, pw]
          | none => []
      some (pre ++ ["rsync".data, "-avz".data]
        ++ ["-e".data, sshOptsOf port useKey keyPath]
        ++ [filepathFrom,
          replaceDoubleSlash (remoteOf user h dest ++ "/".data ++ relativePathTo)])

/-- The `Copying file (rsync):` log line's command (syncer.py lines
394-396). -/
def rsyncCpLogged (host user password keyPath : Option Str)
    (useKey keyExists : Bool) (port dest filepathFrom relativePathTo : Str) :
    Option (List Str) :=
  (rsyncCpCmd host user password keyPath useKey keyExists port dest filepathFrom
    relativePathTo).map (maskCmd password)

/-- The three synchronizer backends of `SyncService.run_sync`. -/
inductive BackendKind where
  | adb
  | rsync
  | ftp
deriving DecidableEq

/-- The `_sync` dispatch of `SyncService.run_sync` (syncer.py lines
627-643).  A known mode constructs and runs the matching synchronizer
(whose own failures, e.g. an FTP connection error, are abstracted by
`runBackend` and propagate as `Except.error`); any other mode only sends
`Unknown mode: <mode>` to the log callback and completes normally. -/
def runSyncDispatch (runBackend : BackendKind → Except Str Unit) (mode : Str) :
    Except Str (List Str) :=
  if mode = "adb".data then (runBackend BackendKind.adb).map (fun _ => [])
  else if mode = "rsync".data then (runBackend BackendKind.rsync).map (fun _ => [])
  else if mode = "ftp".data then (runBackend BackendKind.ftp).map (fun _ => [])
  else Except.ok ["Unknown mode: ".data ++ mode]

/-- Second catalog row for the include-file scenario, not sync-enabled. -/
def trackB : Track :=
  { trackA with
    file_path := "/lib/b.mp3".data
    relative_path := "/lib/b.mp3".data
    sync := false }

/-! Metadata extraction (`ScannerService._extract_metadata`, scanner.py
lines 252-338).  The mutagen library calls are oracles in `TagEnv`;
their Python exceptions are `Except.error` values.  Key lookups through
`if_key_error` (which already catches `KeyError`/`IndexError`) are folded
into the oracles as `Option` fields. -/

/-- Outcome of constructing `EasyID3(filepath)`: the dedicated
`ID3NoHeaderError`, or any other exception. -/
inductive TagErr where
  | noHeader
  | other
deriving DecidableEq

/-- The EasyID3 tag values read by the mp3 branch (each `none` when the
key is absent). -/
structure Id3Tags where
  title : Option Str
  artist : Option Str
  album : Option Str
  albumartist : Option Str
  composer : Option Str
  tracknumber : Option Str
  length : Option Str
deriving DecidableEq

/-- The `mp4.info` object; `length` carries `int(mp4.info.length)`. -/
structure Mp4Info where
  length : Int
deriving DecidableEq

/-- The MP4 atom values read by the mp4/m4a branch; `trkn` is the
`(index, total)` tuple (of any length), `info` is `mp4.info` when
truthy. -/
structure Mp4Data where
  title : Option Str
  artist : Option Str
  album : Option Str
  albumartist : Option Str
  composer : Option Str
  trkn : Option (List Int)
  info : Option Mp4Info
deriving DecidableEq

/-- Oracles for the three mutagen entry points used by the extractor. -/
structure TagEnv where
  easyID3 : Str → Except TagErr Id3Tags
  mp4 : Str → Except Unit Mp4Data
  mp3Info : Str → Except Unit Int

/-- Working form of the metadata dict while the body runs: `duration`
may hold a raw string (EasyID3 `length`) or an integer (mp4/fallback). -/
structure MetaW where
  file_name : Str
  title : Option Str
  artist : Option Str
  album_artist : Option Str
  composer : Option Str
  album : Option Str
  track_num : Option Str
  codec : Option Str
  msg : Option Str
  duration : Option (Sum Str Int)
deriving DecidableEq

/-- Python `os.path.splitext(os.path.basename(filepath))[0]`. -/
def stemOf (p : Str) : Str :=
  let base := basenameL p
  base.take (base.length - (splitextExt p).length)

/-- The initial `data` dict (scanner.py lines 253-264). -/
def initDataW (p : Str) : MetaW :=
  { file_name := stemOf p
    title := none
    artist := none
    album_artist := none
    composer := none
    album := none
    track_num := none
    codec := none
    msg := none
    duration := none }

/-- Value of a digit string. -/
def digitsVal (ds : Str) : Nat :=
  ds.foldl (fun a c => a * 10 + (c.toNat - '0'.toNat)) 0

/-- Python `int(s)` on a string: optional sign and at least one digit
after stripping whitespace, else `ValueError` (`none`). -/
def pyInt? (s : Str) : Option Int :=
  match pyStrip s with
  | [] => none
  | '-' :: ds =>
    if ds ≠ [] ∧ ds.all Char.isDigit then some (-(digitsVal ds : Int)) else none
  | '+' :: ds =>
    if ds ≠ [] ∧ ds.all Char.isDigit then some ((digitsVal ds : Int)) else none
  | ds =>
    if ds.all Char.isDigit then some ((digitsVal ds : Int)) else none

/-- Python `str(n)` for the track-number render. -/
def intToStr (n : Int) : Str := (toString n).data

/-- The final duration coercion (scanner.py lines 327-332): `int(...)`
with `ValueError`/`TypeError` degrading to `None`. -/
def finishMeta (d : MetaW) : Meta :=
  { file_name := d.file_name
    title := d.title
    artist := d.artist
    album_artist := d.album_artist
    composer := d.composer
    album := d.album
    track_num := d.track_num
    codec := d.codec
    msg := d.msg
    duration :=
      match d.duration with
      | none => none
      | some (Sum.inl s) => pyInt? s
      | some (Sum.inr n) => some n }

/-- The body of the outer `try:` (scanner.py lines 281-326, before the
coercion): dispatch on the lowercased extension, read tags, apply the
mp3 duration fallback.  `Except.error` carries the `data` dict at the
moment an uncaught exception escapes the body. -/
def extractBody (env : TagEnv) (p : Str) : Except MetaW MetaW :=
  let ext := lowerStr (splitextExt p)
  let afterTag : Except MetaW MetaW :=
    if ext = ".mp3".data then
      let d1 := { initDataW p with codec := some "mp3".data }
      match env.easyID3 p with
      | Except.error TagErr.noHeader => Except.ok { d1 with msg := some "!".data }
      | Except.error TagErr.other => Except.error d1
      | Except.ok tags =>
        Except.ok { d1 with
          title := tags.title
          album := tags.album
          artist := tags.artist
          album_artist := tags.albumartist
          composer := tags.composer
          track_num := tags.tracknumber
          duration := tags.length.map Sum.inl }
    else if ext = ".mp4".data ∨ ext = ".m4a".data then
      let d1 := { initDataW p with codec := some "mp4".data }
      match env.mp4 p with
      | Except.error _ => Except.error d1
      | Except.ok m =>
        let d2 := { d1 with
          title := m.title
          album := m.album
          artist := m.artist
          album_artist := m.albumartist
          composer := m.composer }
        let d3 :=
          match m.trkn with
          | none => d2
          | some [] => d2
          | some (a :: rest) =>
            let tn :=
              match rest with
              | b :: _ => if b > 0 then intToStr a ++ "/".data ++ intToStr b
                          else intToStr a
              | [] => intToStr a
            { d2 with track_num := some tn }
        let d4 :=
          match m.info with
          | some info => { d3 with duration := some (Sum.inr info.length) }
          | none => d3
        Except.ok d4
    else Except.ok (initDataW p)
  match afterTag with
  | Except.error d => Except.error d
  | Except.ok d =>
    if d.duration = none ∧ ext = ".mp3".data then
      match env.mp3Info p with
      | Except.ok n => Except.ok { d with duration := some (Sum.inr n) }
      | Except.error _ => Except.ok d
    else Except.ok d

/-- `_extract_metadata` in full: the outer `except Exception` handler
(scanner.py lines 335-338) turns any escaped exception into a returned
record with `msg = "Error"`, so the function is total — it always hands
a record back to the scan loop.  (At every raise point the raw duration
slot is still `None`, so applying the coercion on the handler path is
exact.) -/
def extractMetadata (env : TagEnv) (p : Str) : Meta :=
  match extractBody env p with
  | Except.ok d => finishMeta d
  | Except.error d => finishMeta { d with msg := some "Error".data }

/-- Oracle environment for the witness: every library call fails (the
mp3 tag constructor with the no-header error). -/
def env0 : TagEnv :=
  { easyID3 := fun _ => Except.error TagErr.noHeader
    mp4 := fun _ => Except.error ()
    mp3Info := fun _ => Except.error () }

/-! Basic facts about the path helpers. -/

theorem dirnameRaw_append_basenameL (p : Str) : dirnameRaw p ++ basenameL p = p := by
  induction p with
  | nil => rfl
  | cons c cs ih =>
    by_cases h : '/' ∈ cs
    · simp [dirnameRaw, basenameL, h, ih]
    · by_cases hc : c = '/'
      · simp [dirnameRaw, basenameL, h, hc]
      · simp [dirnameRaw, basenameL, h, hc]

theorem slash_not_mem_basenameL (p : Str) : '/' ∉ basenameL p := by
  induction p with
  | nil => simp [basenameL]
  | cons c cs ih =>
    by_cases h : '/' ∈ cs
    · simp only [basenameL, if_pos h]
      exact ih
    · by_cases hc : c = '/'
      · simp only [basenameL, if_neg h, if_pos hc]
        exact h
      · simp [basenameL, h, hc]
        exact fun hcc => hc hcc.symm

theorem rstripSep_append_no_trailing (x : Str) (hx : x.getLast? ≠ some '/') :
    rstripSep x = x := by
  unfold rstripSep
  rcases x.eq_nil_or_concat with rfl | ⟨y, c, rfl⟩
  · rfl
  · have hc : ¬ c = '/' := by
      intro h
      exact hx (by simp [h])
    simp [List.dropWhile, hc]

theorem computeRelPath_starts_with_sep (rootPath fullPath : Str) :
    (computeRelPath rootPath fullPath).take 1 = ['/'] := by
  unfold computeRelPath forceLeadingSep
  by_cases h : (relAfterBase (pyDirname (rstripSep rootPath)) fullPath).take 1 = ['/']
  · simp [h]
  · simp [h]

theorem take_one_ne_slash (b sub : Str) (hb : b ≠ []) (hslash : '/' ∉ b) :
    (b ++ '/' :: sub).take 1 ≠ ['/'] := by
  cases b with
  | nil => exact absurd rfl hb
  | cons c b' =>
    simp only [List.cons_append, List.take_succ_cons, List.take_zero]
    intro h
    have : c = '/' := by simpa using h
    exact hslash (by simp [this])

/-- Helper for C5: on a root whose dirname portion is well-formed (its raw
head is all separators, or ends in exactly one separator), the computed
relative path is the separator, the root's basename, and the sub-path. -/
theorem computeRelPath_clean_root (R sub : Str)
    (hb : basenameL (rstripSep R) ≠ [])
    (hd : dirnameRaw (rstripSep R) = rstripSep (dirnameRaw (rstripSep R)) ++ ['/']
          ∨ (dirnameRaw (rstripSep R)).all (fun c => c = '/')) :
    computeRelPath R (rstripSep R ++ '/' :: sub)
      = '/' :: (basenameL (rstripSep R) ++ '/' :: sub) := by
  have hsplit := dirnameRaw_append_basenameL (rstripSep R)
  have hslash := slash_not_mem_basenameL (rstripSep R)
  set h := dirnameRaw (rstripSep R) with hh
  set b := basenameL (rstripSep R) with hbdef
  by_cases hall : h.all (fun c => c = '/')
  · -- all-separator (possibly empty) head: dirname keeps it whole
    have hbd : pyDirname (rstripSep R) = h := by
      unfold pyDirname
      rw [← hh]
      simp [hall]
    unfold computeRelPath relAfterBase forceLeadingSep
    rw [hbd, ← hsplit]
    have hpre : h <+: (h ++ b ++ '/' :: sub) := by
      refine ⟨b ++ '/' :: sub, ?_⟩
      simp
    rw [if_pos hpre]
    have hdrop : ((h ++ b ++ '/' :: sub).drop h.length) = b ++ '/' :: sub := by
      have : h ++ b ++ '/' :: sub = h ++ (b ++ '/' :: sub) := by simp
      rw [this, List.drop_left]
    rw [hdrop]
    rw [if_neg (take_one_ne_slash b sub hb hslash)]
  · -- head ends in exactly one separator
    have hleft : h = rstripSep h ++ ['/'] := hd.resolve_right hall
    have hne : h ≠ [] := by
      intro h0
      rw [h0] at hall
      exact hall (by simp)
    have hbd : pyDirname (rstripSep R) = rstripSep h := by
      unfold pyDirname
      rw [← hh]
      simp [hne, hall]
    unfold computeRelPath relAfterBase forceLeadingSep
    rw [hbd, ← hsplit]
    have hfull : h ++ b ++ '/' :: sub = rstripSep h ++ '/' :: (b ++ '/' :: sub) := by
      conv_lhs => rw [hleft]
      simp
    rw [hfull]
    have hpre : rstripSep h <+: (rstripSep h ++ '/' :: (b ++ '/' :: sub)) :=
      ⟨'/' :: (b ++ '/' :: sub), rfl⟩
    rw [if_pos hpre, List.drop_left]
    rw [if_pos (by simp)]

/-- C5 counterexample: for the configured root `/music//A` (nonempty
basename `A`) and the file `/music//A/sub/f.mp3`, the walker computes the
relative path `//A/sub/f.mp3`, not `<sep><basename(R)>/sub/f.mp3` =
`/A/sub/f.mp3` as the claim states. -/
theorem c5_rel_path_counterexample :
    computeRelPath "/music//A".data "/music//A/sub/f.mp3".data = "//A/sub/f.mp3".data
    ∧ basenameL (rstripSep "/music//A".data) = "A".data
    ∧ "//A/sub/f.mp3".data ≠
        '/' :: (basenameL (rstripSep "/music//A".data) ++ "/sub/f.mp3".data) := by
  refine ⟨by decide, by decide, by decide⟩

/-- C5 (amended): for every configured root `R` with a nonempty basename
and no repeated separator immediately before the basename, the walker's
relative path for a file at `R/sub/f.mp3` is the OS separator, then
`basename(R)`, then `/sub/f.mp3`; and every computed relative path begins
with the separator. -/
theorem c5_rel_path_amended (R sub : Str)
    (hb : basenameL (rstripSep R) ≠ [])
    (hd : dirnameRaw (rstripSep R) = rstripSep (dirnameRaw (rstripSep R)) ++ ['/']
          ∨ (dirnameRaw (rstripSep R)).all (fun c => c = '/')) :
    computeRelPath R (rstripSep R ++ '/' :: sub)
      = '/' :: (basenameL (rstripSep R) ++ '/' :: sub)
    ∧ ∀ rootPath fullPath, (computeRelPath rootPath fullPath).take 1 = ['/'] :=
  ⟨computeRelPath_clean_root R sub hb hd, computeRelPath_starts_with_sep⟩

/-- Witness for C5 (amended) at the concrete root `/music/A` and file
`/music/A/sub/f.mp3`. -/
theorem c5_rel_path_witness :
    computeRelPath "/music/A".data ("/music/A".data ++ '/' :: "sub/f.mp3".data)
      = '/' :: (basenameL (rstripSep "/music/A".data) ++ '/' :: "sub/f.mp3".data) := by
  have h := c5_rel_path_amended "/music/A".data "sub/f.mp3".data (by decide)
    (Or.inl (by decide))
  have h2 : rstripSep "/music/A".data = "/music/A".data := by decide
  rw [← h2]
  exact h.1

/-! Lemmas about row lookup and the scan fold. -/

theorem getEntry_nil (p : Str) : getEntry [] p = none := rfl

theorem getEntry_cons (x : Track) (l : List Track) (p : Str) :
    getEntry (x :: l) p = if x.file_path = p then some x else getEntry l p := by
  by_cases h : x.file_path = p
  · simp [getEntry, List.find?, h]
  · have hb : (x.file_path == p) = false := beq_eq_false_iff_ne.mpr h
    simp [getEntry, List.find?, hb, h]

theorem getEntry_eq_some_path {l : List Track} {p : Str} {t : Track}
    (h : getEntry l p = some t) : t.file_path = p := by
  induction l with
  | nil => simp [getEntry_nil] at h
  | cons x xs ih =>
    rw [getEntry_cons] at h
    by_cases hx : x.file_path = p
    · rw [if_pos hx] at h
      cases h
      exact hx
    · rw [if_neg hx] at h
      exact ih h

theorem getEntry_self {l : List Track} {t : Track}
    (hnd : (l.map (fun u => u.file_path)).Nodup) (hmem : t ∈ l) :
    getEntry l t.file_path = some t := by
  induction l with
  | nil => simp at hmem
  | cons x xs ih =>
    rw [getEntry_cons]
    rcases List.mem_cons.mp hmem with rfl | hmem'
    · rw [if_pos rfl]
    · by_cases hx : x.file_path = t.file_path
      · exfalso
        have : t.file_path ∈ xs.map (fun u => u.file_path) :=
          List.mem_map.mpr ⟨t, hmem', rfl⟩
        rw [List.map_cons, List.nodup_cons] at hnd
        exact hnd.1 (hx ▸ this)
      · rw [if_neg hx]
        exact ih (by simpa using (List.map_cons _ x xs ▸ hnd).of_cons) hmem'

theorem getEntry_eq_none {l : List Track} {p : Str}
    (h : p ∉ l.map (fun u => u.file_path)) : getEntry l p = none := by
  induction l with
  | nil => rfl
  | cons x xs ih =>
    rw [getEntry_cons]
    simp only [List.map_cons, List.mem_cons] at h
    push_neg at h
    rw [if_neg (fun he => h.1 he.symm)]
    exact ih h.2

theorem getEntry_map {g : Track → Track} (hg : ∀ x, (g x).file_path = x.file_path)
    (l : List Track) (p : Str) : getEntry (l.map g) p = (getEntry l p).map g := by
  induction l with
  | nil => rfl
  | cons x xs ih =>
    rw [List.map_cons, getEntry_cons, getEntry_cons, hg]
    by_cases hx : x.file_path = p
    · simp [hx]
    · simp only [if_neg hx]
      exact ih

theorem getEntry_append (l1 l2 : List Track) (p : Str) :
    getEntry (l1 ++ l2) p =
      match getEntry l1 p with
      | some t => some t
      | none => getEntry l2 p := by
  induction l1 with
  | nil => simp [getEntry_nil]
  | cons x xs ih =>
    rw [List.cons_append, getEntry_cons, getEntry_cons]
    by_cases hx : x.file_path = p
    · simp [hx]
    · simp only [if_neg hx]
      exact ih

theorem clearMissing_file_path (t : Track) :
    (clearMissing t).file_path = t.file_path := by
  unfold clearMissing
  split <;> rfl

theorem clearMissing_last_modified (t : Track) :
    (clearMissing t).last_modified = t.last_modified := by
  unfold clearMissing
  split <;> rfl

theorem clearMissing_relative_path (t : Track) :
    (clearMissing t).relative_path = t.relative_path := by
  unfold clearMissing
  split <;> rfl

theorem clearMissing_missing (t : Track) : (clearMissing t).missing = false := by
  unfold clearMissing
  split <;> simp_all

theorem clearMissing_eq (t : Track) : clearMissing t = { t with missing := false } := by
  unfold clearMissing
  split
  · rfl
  · cases t
    simp_all

theorem scanExisting_fst_file_path (extract : Str → Meta) (f : WalkedFile)
    (t0 : Track) : ((scanExisting extract f t0).1).file_path = t0.file_path := by
  unfold scanExisting
  dsimp only
  split_ifs <;> simp [applyMeta, clearMissing_file_path]

theorem markMissingTrack_file_path (scanned : List Str) (t : Track) :
    (markMissingTrack scanned t).file_path = t.file_path := by
  unfold markMissingTrack
  by_cases h : (scanned.contains t.file_path || t.missing) = true
  · rw [if_pos h]
  · rw [if_neg h]

/-- The row with an unwalked path is never the lookup hit of any loop
step, so the whole walked-files fold leaves it untouched. -/
theorem getEntry_foldl_not_walked (extract : Str → Meta) (now : Int)
    (files : List WalkedFile) (st : ScanState) (p : Str)
    (hp : p ∉ files.map (fun f => f.path)) :
    getEntry ((files.foldl (processWalked extract now) st).existing) p
      = getEntry st.existing p := by
  induction files generalizing st with
  | nil => rfl
  | cons f fs ih =>
    simp only [List.map_cons, List.mem_cons] at hp
    push_neg at hp
    rw [List.foldl_cons, ih _ hp.2]
    unfold processWalked
    cases hfind : getEntry st.existing f.path with
    | none => rfl
    | some t0 =>
      simp only
      rw [getEntry_map (fun x => by
        by_cases hx : (x.file_path == f.path) = true
        · simp only [if_pos hx]
          exact (scanExisting_fst_file_path extract f x).trans rfl
        · simp only [if_neg hx])]
      cases hret : getEntry st.existing p with
      | none => rfl
      | some t =>
        have htp : t.file_path = p := getEntry_eq_some_path hret
        have hbf : (t.file_path == f.path) = false := by
          rw [htp]
          exact beq_eq_false_iff_ne.mpr (fun h => hp.1 h)
        simp only [Option.map_some']
        rw [hbf]
        simp

theorem fold_existing_paths (extract : Str → Meta) (now : Int)
    (files : List WalkedFile) (st : ScanState) :
    ((files.foldl (processWalked extract now) st).existing).map (fun u => u.file_path)
      = st.existing.map (fun u => u.file_path) := by
  induction files generalizing st with
  | nil => rfl
  | cons f fs ih =>
    rw [List.foldl_cons, ih]
    unfold processWalked
    cases hfind : getEntry st.existing f.path with
    | none => rfl
    | some t0 =>
      simp only [List.map_map]
      apply List.map_congr_left
      intro x _
      simp only [Function.comp_apply]
      by_cases hx : (x.file_path == f.path) = true
      · simp only [if_pos hx]
        exact scanExisting_fst_file_path extract f x
      · simp only [if_neg hx]

/-- The loop step on the unique walked file carrying path `p` rewrites the
row found for `p` through `scanExisting`. -/
theorem getEntry_foldl_walked_once (extract : Str → Meta) (now : Int)
    (l1 l2 : List WalkedFile) (f : WalkedFile) (st : ScanState) (t0 : Track)
    (h1 : f.path ∉ l1.map (fun g => g.path)) (h2 : f.path ∉ l2.map (fun g => g.path))
    (hfound : getEntry st.existing f.path = some t0) :
    getEntry (((l1 ++ f :: l2).foldl (processWalked extract now) st).existing) f.path
      = some ((scanExisting extract f t0).1) := by
  rw [List.foldl_append, List.foldl_cons]
  have hmid : getEntry ((l1.foldl (processWalked extract now) st).existing) f.path
      = some t0 := by
    rw [getEntry_foldl_not_walked extract now l1 st f.path h1]
    exact hfound
  have hstep : ∀ st1 : ScanState, getEntry st1.existing f.path = some t0 →
      getEntry ((processWalked extract now st1 f).existing) f.path
      = some ((scanExisting extract f t0).1) := by
    intro st1 hmid1
    unfold processWalked
    rw [hmid1]
    simp only
    rw [getEntry_map (fun x => by
      by_cases hx : (x.file_path == f.path) = true
      · simp only [if_pos hx]
        exact scanExisting_fst_file_path extract f x
      · simp only [if_neg hx])]
    rw [hmid1]
    have hb : (t0.file_path == f.path) = true :=
      beq_iff_eq.mpr (getEntry_eq_some_path hmid1)
    simp only [Option.map_some']
    rw [hb]
    simp
  rw [getEntry_foldl_not_walked extract now l2
    (processWalked extract now (l1.foldl (processWalked extract now) st) f) f.path h2]
  exact hstep _ hmid

theorem str_contains_of_mem {l : List Str} {a : Str} (h : a ∈ l) :
    l.contains a = true :=
  List.elem_eq_true_of_mem h

theorem str_contains_eq_false {l : List Str} {a : Str} (h : a ∉ l) :
    l.contains a = false := by
  cases hc : l.contains a
  · rfl
  · exact absurd (List.mem_of_elem_eq_true hc) h

theorem scanExisting_same (extract : Str → Meta) (f : WalkedFile) (t0 : Track)
    (hmt : t0.last_modified = f.mtime) (hrel : t0.relative_path = f.rel) :
    scanExisting extract f t0 = (clearMissing t0, 0) := by
  unfold scanExisting
  dsimp only
  rw [if_pos ((clearMissing_last_modified t0).trans hmt),
    if_pos ((clearMissing_relative_path t0).trans hrel)]

theorem scanExisting_path_only (extract : Str → Meta) (f : WalkedFile) (t0 : Track)
    (hmt : t0.last_modified = f.mtime) (hrel : t0.relative_path ≠ f.rel) :
    scanExisting extract f t0 = ({ clearMissing t0 with relative_path := f.rel }, 1) := by
  unfold scanExisting
  dsimp only
  rw [if_pos ((clearMissing_last_modified t0).trans hmt),
    if_neg (fun h => hrel ((clearMissing_relative_path t0).symm.trans h))]

theorem markMissingTrack_of_scanned (scanned : List Str) (t : Track)
    (h : scanned.contains t.file_path = true) :
    markMissingTrack scanned t = t := by
  unfold markMissingTrack
  rw [h]
  simp

theorem markMissingTrack_of_not_scanned (scanned : List Str) (t : Track)
    (h : scanned.contains t.file_path = false) :
    markMissingTrack scanned t = { t with missing := true } := by
  unfold markMissingTrack
  rw [h]
  simp only [Bool.false_or]
  by_cases hm : t.missing = true
  · rw [if_pos hm]
    cases t
    simp_all
  · rw [if_neg hm]

/-- A catalog row whose path is not among the walked paths passes through
the whole scan pass touched only by the mark-missing sweep. -/
theorem getEntry_runScanPass_not_walked (extract : Str → Meta) (now : Int)
    (catalog : List Track) (files : List WalkedFile) (t : Track)
    (hmem : t ∈ catalog)
    (hnd : (catalog.map (fun u => u.file_path)).Nodup)
    (hnp : t.file_path ∉ files.map (fun f => f.path)) :
    getEntry ((runScanPass extract now catalog files).catalog) t.file_path
      = some { t with missing := true } := by
  unfold runScanPass
  dsimp only
  rw [getEntry_append]
  have h1 : getEntry ((files.foldl (processWalked extract now)
      ⟨catalog, [], 0, 0⟩).existing) t.file_path = some t := by
    rw [getEntry_foldl_not_walked extract now files ⟨catalog, [], 0, 0⟩ t.file_path hnp]
    exact getEntry_self hnd hmem
  rw [getEntry_map (markMissingTrack_file_path (files.map (fun f => f.path))), h1]
  have hc : (files.map (fun f => f.path)).contains t.file_path = false :=
    str_contains_eq_false hnp
  rw [Option.map_some', markMissingTrack_of_not_scanned _ _ hc]

/-- A catalog row whose path is walked exactly once, by the walked file
`f0`, comes out of the scan pass as `scanExisting`'s rewrite of it. -/
theorem getEntry_runScanPass_walked (extract : Str → Meta) (now : Int)
    (catalog : List Track) (files : List WalkedFile) (t : Track) (f0 : WalkedFile)
    (hmem : t ∈ catalog)
    (hnd : (catalog.map (fun u => u.file_path)).Nodup)
    (hfnd : (files.map (fun f => f.path)).Nodup)
    (hfmem : f0 ∈ files)
    (hpath : f0.path = t.file_path) :
    getEntry ((runScanPass extract now catalog files).catalog) t.file_path
      = some ((scanExisting extract f0 t).1) := by
  obtain ⟨l1, l2, rfl⟩ := List.append_of_mem hfmem
  have hnd2 := hfnd
  rw [List.map_append, List.map_cons, List.nodup_append] at hnd2
  have hp1 : f0.path ∉ l1.map (fun g => g.path) := by
    intro hin
    exact (hnd2.2.2 hin) (List.mem_cons_self _ _)
  have hp2 : f0.path ∉ l2.map (fun g => g.path) := by
    have := hnd2.2.1
    rw [List.nodup_cons] at this
    exact this.1
  unfold runScanPass
  dsimp only
  rw [getEntry_append]
  have hfound : getEntry catalog f0.path = some t := by
    rw [hpath]
    exact getEntry_self hnd hmem
  have h1 : getEntry (((l1 ++ f0 :: l2).foldl (processWalked extract now)
      ⟨catalog, [], 0, 0⟩).existing) t.file_path
      = some ((scanExisting extract f0 t).1) := by
    rw [← hpath]
    exact getEntry_foldl_walked_once extract now l1 l2 f0 ⟨catalog, [], 0, 0⟩ t hp1 hp2 hfound
  rw [getEntry_map (markMissingTrack_file_path ((l1 ++ f0 :: l2).map (fun f => f.path))),
    h1]
  have hsc : ((l1 ++ f0 :: l2).map (fun f => f.path)).contains
      ((scanExisting extract f0 t).1).file_path = true := by
    rw [scanExisting_fst_file_path, ← hpath]
    exact str_contains_of_mem (List.mem_map.mpr ⟨f0, hfmem, rfl⟩)
  rw [Option.map_some', markMissingTrack_of_scanned _ _ hsc]

/-- Claim C2: a catalog row whose path the scan does not observe is only
flagged `missing=true`, every other field kept; a row observed again with
unchanged modification time and relative path only has `missing` cleared,
with the sync flag, creation time, and all display fields untouched. -/
theorem c2_missing_tombstone (extract : Str → Meta) (now : Int)
    (catalog : List Track) (files : List WalkedFile) (t : Track)
    (hmem : t ∈ catalog)
    (hnd : (catalog.map (fun u => u.file_path)).Nodup) :
    (t.file_path ∉ files.map (fun f => f.path) →
      getEntry ((runScanPass extract now catalog files).catalog) t.file_path
        = some { t with missing := true })
    ∧ ((files.map (fun f => f.path)).Nodup →
       (⟨t.file_path, t.relative_path, t.last_modified⟩ : WalkedFile) ∈ files →
       getEntry ((runScanPass extract now catalog files).catalog) t.file_path
        = some { t with missing := false }) := by
  constructor
  · intro hnp
    exact getEntry_runScanPass_not_walked extract now catalog files t hmem hnd hnp
  · intro hfnd hfmem
    rw [getEntry_runScanPass_walked extract now catalog files t
      ⟨t.file_path, t.relative_path, t.last_modified⟩ hmem hnd hfnd hfmem rfl]
    rw [scanExisting_same extract _ t rfl rfl]
    rw [clearMissing_eq]

/-- Witness for C2 on a one-row catalog: the row's file is absent from
the walk, and the scan pass only flags it missing. -/
theorem c2_missing_tombstone_witness :
    getEntry ((runScanPass (fun _ => metaX) 7 [trackA] []).catalog)
        trackA.file_path
      = some { trackA with missing := true } := by
  have h := c2_missing_tombstone (fun _ => metaX) 7 [trackA] [] trackA
    (by simp) (by simp)
  exact h.1 (by simp)

/-- Claim C3: a walked file whose catalog row has an equal stored
modification time but a different stored relative path gets only the
relative path rewritten (plus the `missing` un-flag of the shared
existing-row branch); the conclusion holds for every metadata extractor,
so metadata extraction is never consulted, and the display fields and the
stored modification time are unchanged. -/
theorem c3_path_rewrite_only (extract : Str → Meta) (now : Int)
    (catalog : List Track) (files : List WalkedFile) (t : Track) (relNew : Str)
    (hmem : t ∈ catalog)
    (hnd : (catalog.map (fun u => u.file_path)).Nodup)
    (hfnd : (files.map (fun f => f.path)).Nodup)
    (hfmem : (⟨t.file_path, relNew, t.last_modified⟩ : WalkedFile) ∈ files)
    (hrel : t.relative_path ≠ relNew) :
    getEntry ((runScanPass extract now catalog files).catalog) t.file_path
      = some { t with relative_path := relNew, missing := false } := by
  rw [getEntry_runScanPass_walked extract now catalog files t
    ⟨t.file_path, relNew, t.last_modified⟩ hmem hnd hfnd hfmem rfl]
  rw [scanExisting_path_only extract _ t rfl hrel]
  rw [clearMissing_eq]

/-- Witness for C3: a root reconfiguration moves the relative path of an
otherwise unchanged file from `/lib/a.mp3` to `/x/a.mp3`. -/
theorem c3_path_rewrite_only_witness :
    getEntry ((runScanPass (fun _ => metaX) 7 [trackA]
        [⟨trackA.file_path, "/x/a.mp3".data, trackA.last_modified⟩]).catalog)
        trackA.file_path
      = some { trackA with relative_path := "/x/a.mp3".data, missing := false } :=
  c3_path_rewrite_only (fun _ => metaX) 7 [trackA]
    [⟨trackA.file_path, "/x/a.mp3".data, trackA.last_modified⟩] trackA
    "/x/a.mp3".data (by simp) (by simp) (by simp) (by simp) (by decide)

theorem list_map_id_of {α : Type} (l : List α) (g : α → α) (h : ∀ x ∈ l, g x = x) :
    l.map g = l := by
  induction l with
  | nil => rfl
  | cons x xs ih =>
    rw [List.map_cons, h x (List.mem_cons_self x xs),
      ih (fun y hy => h y (List.mem_cons_of_mem x hy))]

theorem list_foldl_id {α β : Type} (l : List β) (step : α → β → α) (st : α)
    (h : ∀ b ∈ l, step st b = st) : l.foldl step st = st := by
  induction l with
  | nil => rfl
  | cons x xs ih =>
    rw [List.foldl_cons, h x (List.mem_cons_self x xs),
      ih (fun y hy => h y (List.mem_cons_of_mem x hy))]

theorem list_filter_eq_nil {α : Type} (l : List α) (p : α → Bool)
    (h : ∀ x ∈ l, p x = false) : l.filter p = [] := by
  induction l with
  | nil => rfl
  | cons x xs ih =>
    rw [List.filter_cons, h x (List.mem_cons_self x xs)]
    simp only [Bool.false_eq_true, if_false]
    exact ih (fun y hy => h y (List.mem_cons_of_mem x hy))

theorem getEntry_none_iff (l : List Track) (p : Str) :
    getEntry l p = none ↔ p ∉ l.map (fun u => u.file_path) := by
  induction l with
  | nil => simp [getEntry_nil]
  | cons x xs ih =>
    rw [getEntry_cons]
    by_cases hx : x.file_path = p
    · simp [hx]
    · simp only [if_neg hx, List.map_cons, List.mem_cons, ih]
      constructor
      · intro h hor
        rcases hor with h1 | h2
        · exact hx h1.symm
        · exact h h2
      · intro h
        exact fun h2 => h (Or.inr h2)

theorem getEntry_unique {l : List Track} {t x : Track} {p : Str}
    (hnd : (l.map (fun u => u.file_path)).Nodup)
    (h : getEntry l p = some t) (hx : x ∈ l) (hpx : x.file_path = p) : x = t := by
  have hself := getEntry_self hnd hx
  rw [hpx, h] at hself
  cases hself
  rfl

theorem clearMissing_of_not_missing {t : Track} (h : t.missing = false) :
    clearMissing t = t := by
  unfold clearMissing
  rw [h]
  simp

theorem markMissingTrack_of_missing (scanned : List Str) (t : Track)
    (h : t.missing = true) : markMissingTrack scanned t = t := by
  unfold markMissingTrack
  rw [h, Bool.or_true]
  simp

/-- Every branch of the existing-row rewrite leaves the row synchronized
with the walked file: relative path and modification time match the walk,
and the missing flag is cleared. -/
theorem scanExisting_fst_spec (extract : Str → Meta) (f : WalkedFile) (t0 : Track) :
    ((scanExisting extract f t0).1).relative_path = f.rel
    ∧ ((scanExisting extract f t0).1).last_modified = f.mtime
    ∧ ((scanExisting extract f t0).1).missing = false := by
  unfold scanExisting
  dsimp only
  split_ifs with h1 h2 h3 <;>
    simp_all [applyMeta, clearMissing_missing, clearMissing_relative_path,
      clearMissing_last_modified]

theorem processWalked_existing_paths (extract : Str → Meta) (now : Int)
    (st : ScanState) (f : WalkedFile) :
    ((processWalked extract now st f).existing).map (fun u => u.file_path)
      = st.existing.map (fun u => u.file_path) := by
  unfold processWalked
  cases hfind : getEntry st.existing f.path with
  | none => rfl
  | some t0 =>
    simp only [List.map_map]
    apply List.map_congr_left
    intro x _
    simp only [Function.comp_apply]
    by_cases hx : (x.file_path == f.path) = true
    · simp only [if_pos hx]
      exact scanExisting_fst_file_path extract f x
    · simp only [if_neg hx]

/-- The rows accumulated by `db.add` during the walked-files loop are
exactly the walked files whose path is not among the loaded rows' paths,
in walk order. -/
theorem fold_added (extract : Str → Meta) (now : Int) (files : List WalkedFile)
    (st : ScanState) :
    (files.foldl (processWalked extract now) st).added
      = st.added ++ (files.filter
          (fun f => !((st.existing.map (fun u => u.file_path)).contains f.path))).map
          (fun f => newTrackOf (extract f.path) f now) := by
  induction files generalizing st with
  | nil => simp
  | cons f fs ih =>
    rw [List.foldl_cons, ih, List.filter_cons]
    have hpaths := processWalked_existing_paths extract now st f
    rw [hpaths]
    by_cases hp : f.path ∈ st.existing.map (fun u => u.file_path)
    · have hc : ((st.existing.map (fun u => u.file_path)).contains f.path) = true :=
        str_contains_of_mem hp
      rw [hc]
      simp only [Bool.not_true, Bool.false_eq_true, if_false]
      have hsome : getEntry st.existing f.path ≠ none :=
        fun hn => absurd hp ((getEntry_none_iff _ _).mp hn)
      unfold processWalked
      cases hfind : getEntry st.existing f.path with
      | none => exact absurd hfind hsome
      | some t0 => rfl
    · have hc : ((st.existing.map (fun u => u.file_path)).contains f.path) = false :=
        str_contains_eq_false hp
      rw [hc]
      simp only [Bool.not_false, if_pos]
      have hnone : getEntry st.existing f.path = none := (getEntry_none_iff _ _).mpr hp
      unfold processWalked
      rw [hnone]
      simp

theorem fold_existing_paths_init (extract : Str → Meta) (now : Int)
    (files : List WalkedFile) (catalog : List Track) :
    (((files.foldl (processWalked extract now)
        ⟨catalog, [], 0, 0⟩).existing).map (fun u => u.file_path))
      = catalog.map (fun u => u.file_path) :=
  fold_existing_paths extract now files ⟨catalog, [], 0, 0⟩

theorem marked_paths (extract : Str → Meta) (now : Int) (catalog : List Track)
    (files : List WalkedFile) :
    (((files.foldl (processWalked extract now) ⟨catalog, [], 0, 0⟩).existing).map
        (markMissingTrack (files.map (fun f => f.path)))).map (fun u => u.file_path)
      = catalog.map (fun u => u.file_path) := by
  rw [List.map_map]
  have h1 : ((files.foldl (processWalked extract now) ⟨catalog, [], 0, 0⟩).existing).map
      ((fun u => u.file_path) ∘ markMissingTrack (files.map (fun f => f.path)))
      = ((files.foldl (processWalked extract now) ⟨catalog, [], 0, 0⟩).existing).map
        (fun u => u.file_path) :=
    List.map_congr_left (fun x _ => markMissingTrack_file_path _ x)
  rw [h1, fold_existing_paths_init]

theorem added_paths (extract : Str → Meta) (now : Int) (catalog : List Track)
    (files : List WalkedFile) :
    ((files.foldl (processWalked extract now) ⟨catalog, [], 0, 0⟩).added).map
        (fun u => u.file_path)
      = (files.filter
          (fun f => !((catalog.map (fun u => u.file_path)).contains f.path))).map
          (fun f => f.path) := by
  rw [fold_added]
  dsimp only
  rw [List.nil_append, List.map_map]
  exact List.map_congr_left (fun g _ => rfl)

/-- After a scan pass, every walked file has a catalog row under its path
whose relative path, modification time and missing flag agree with the
walk. -/
theorem runScanPass_observed (extract : Str → Meta) (now : Int)
    (catalog : List Track) (files : List WalkedFile)
    (hnd : (catalog.map (fun u => u.file_path)).Nodup)
    (hfnd : (files.map (fun f => f.path)).Nodup) :
    ∀ f ∈ files, ∃ t',
      getEntry ((runScanPass extract now catalog files).catalog) f.path = some t'
      ∧ t'.relative_path = f.rel ∧ t'.last_modified = f.mtime
      ∧ t'.missing = false := by
  intro f hf
  by_cases hp : f.path ∈ catalog.map (fun u => u.file_path)
  · obtain ⟨t, ht, htp⟩ := List.mem_map.mp hp
    obtain ⟨h1, h2, h3⟩ := scanExisting_fst_spec extract f t
    refine ⟨(scanExisting extract f t).1, ?_, h1, h2, h3⟩
    rw [← htp]
    exact getEntry_runScanPass_walked extract now catalog files t f ht hnd hfnd hf htp.symm
  · refine ⟨newTrackOf (extract f.path) f now, ?_, rfl, rfl, rfl⟩
    unfold runScanPass
    dsimp only
    rw [getEntry_append]
    have hmarked : getEntry (((files.foldl (processWalked extract now)
        ⟨catalog, [], 0, 0⟩).existing).map
        (markMissingTrack (files.map (fun g => g.path)))) f.path = none := by
      rw [getEntry_none_iff, marked_paths]
      exact hp
    rw [hmarked]
    rw [fold_added]
    dsimp only
    rw [List.nil_append]
    have hpred : (!((catalog.map (fun u => u.file_path)).contains f.path)) = true := by
      rw [str_contains_eq_false hp]
      rfl
    have hmem2 : newTrackOf (extract f.path) f now
        ∈ (files.filter
            (fun g => !((catalog.map (fun u => u.file_path)).contains g.path))).map
            (fun g => newTrackOf (extract g.path) g now) :=
      List.mem_map.mpr ⟨f, List.mem_filter.mpr ⟨hf, hpred⟩, rfl⟩
    have hndm : (((files.filter
        (fun g => !((catalog.map (fun u => u.file_path)).contains g.path))).map
        (fun g => newTrackOf (extract g.path) g now)).map
        (fun u => u.file_path)).Nodup := by
      rw [List.map_map]
      have he : (files.filter
          (fun g => !((catalog.map (fun u => u.file_path)).contains g.path))).map
          ((fun u => u.file_path) ∘ (fun g => newTrackOf (extract g.path) g now))
          = (files.filter
            (fun g => !((catalog.map (fun u => u.file_path)).contains g.path))).map
            (fun g => g.path) :=
        List.map_congr_left (fun g _ => rfl)
      rw [he]
      exact List.Nodup.sublist
        (List.Sublist.map (fun g => g.path) (List.filter_sublist files)) hfnd
    exact getEntry_self hndm hmem2

/-- After a scan pass, every catalog row whose path was not walked carries
`missing = true`. -/
theorem runScanPass_unobserved_missing (extract : Str → Meta) (now : Int)
    (catalog : List Track) (files : List WalkedFile) :
    ∀ x ∈ (runScanPass extract now catalog files).catalog,
      x.file_path ∉ files.map (fun f => f.path) → x.missing = true := by
  intro x hx hnp
  unfold runScanPass at hx
  dsimp only at hx
  rcases List.mem_append.mp hx with hm | ha
  · obtain ⟨y, hy, rfl⟩ := List.mem_map.mp hm
    rw [markMissingTrack_file_path] at hnp
    have hc : ((files.map (fun f => f.path)).contains y.file_path) = false :=
      str_contains_eq_false hnp
    rw [markMissingTrack_of_not_scanned _ _ hc]
  · rw [fold_added] at ha
    dsimp only at ha
    rw [List.nil_append] at ha
    obtain ⟨g, hg, rfl⟩ := List.mem_map.mp ha
    exact absurd (List.mem_map.mpr ⟨g, (List.mem_filter.mp hg).1, rfl⟩) hnp

/-- A scan pass preserves uniqueness of the catalog key. -/
theorem runScanPass_nodup (extract : Str → Meta) (now : Int)
    (catalog : List Track) (files : List WalkedFile)
    (hnd : (catalog.map (fun u => u.file_path)).Nodup)
    (hfnd : (files.map (fun f => f.path)).Nodup) :
    (((runScanPass extract now catalog files).catalog).map
      (fun u => u.file_path)).Nodup := by
  unfold runScanPass
  dsimp only
  rw [List.map_append, List.nodup_append, marked_paths, added_paths]
  refine ⟨hnd, ?_, ?_⟩
  · exact List.Nodup.sublist
      (List.Sublist.map (fun g => g.path) (List.filter_sublist files)) hfnd
  · intro a ha hb
    obtain ⟨g, hg, rfl⟩ := List.mem_map.mp hb
    have hpred := (List.mem_filter.mp hg).2
    rw [str_contains_of_mem ha] at hpred
    simp at hpred

/-- A loop step over a walked file whose catalog row already matches the
walk (same relative path, same modification time, not missing) changes
nothing: no row mutation, no update count. -/
theorem processWalked_id (extract : Str → Meta) (now : Int) (cat1 : List Track)
    (f : WalkedFile) (t : Track)
    (hnd : (cat1.map (fun u => u.file_path)).Nodup)
    (hfound : getEntry cat1 f.path = some t)
    (hrel : t.relative_path = f.rel) (hmt : t.last_modified = f.mtime)
    (hmiss : t.missing = false) :
    processWalked extract now ⟨cat1, [], 0, 0⟩ f = ⟨cat1, [], 0, 0⟩ := by
  unfold processWalked
  dsimp only
  rw [hfound]
  have hmap : cat1.map
      (fun x => if (x.file_path == f.path) = true then (scanExisting extract f x).1 else x)
      = cat1 := by
    apply list_map_id_of
    intro x hx
    by_cases hxp : (x.file_path == f.path) = true
    · have hxe : x = t := getEntry_unique hnd hfound hx (beq_iff_eq.mp hxp)
      subst hxe
      simp only [if_pos hxp]
      rw [scanExisting_same extract f x hmt hrel]
      exact clearMissing_of_not_missing hmiss
    · simp only [if_neg hxp]
  rw [hmap]
  show (⟨cat1, [], 0, 0 + (scanExisting extract f t).2⟩ : ScanState) = ⟨cat1, [], 0, 0⟩
  rw [scanExisting_same extract f t hmt hrel]
  rfl

/-- Claim C4: scanning twice over the same filesystem state (same walked
files, modification times and relative paths) performs zero catalog
mutations in the second pass: the catalog is unchanged and the summary
counters — and hence the summary line — report Added: 0, Updated: 0,
Missing: 0.  The second pass's extractor and clock are arbitrary: neither
is ever consulted. -/
theorem c4_scan_idempotent (extract1 extract2 : Str → Meta) (now1 now2 : Int)
    (catalog : List Track) (files : List WalkedFile)
    (hnd : (catalog.map (fun u => u.file_path)).Nodup)
    (hfnd : (files.map (fun f => f.path)).Nodup) :
    runScanPass extract2 now2 ((runScanPass extract1 now1 catalog files).catalog) files
      = ⟨(runScanPass extract1 now1 catalog files).catalog, 0, 0, 0⟩
    ∧ scanSummary 0 0 0
      = "Scan complete. Added: 0, Updated: 0, Missing: 0".data := by
  refine ⟨?_, by decide⟩
  have hobs := runScanPass_observed extract1 now1 catalog files hnd hfnd
  have hmiss := runScanPass_unobserved_missing extract1 now1 catalog files
  have hnd1 := runScanPass_nodup extract1 now1 catalog files hnd hfnd
  set cat1 := (runScanPass extract1 now1 catalog files).catalog with hcat1
  have hfold : files.foldl (processWalked extract2 now2) ⟨cat1, [], 0, 0⟩
      = ⟨cat1, [], 0, 0⟩ := by
    apply list_foldl_id
    intro f hf
    obtain ⟨t, hfound, hrel, hmt, hm⟩ := hobs f hf
    exact processWalked_id extract2 now2 cat1 f t hnd1 hfound hrel hmt hm
  have hmark : cat1.map (markMissingTrack (files.map (fun f => f.path))) = cat1 := by
    apply list_map_id_of
    intro x hx
    by_cases hxs : x.file_path ∈ files.map (fun f => f.path)
    · exact markMissingTrack_of_scanned _ _ (str_contains_of_mem hxs)
    · exact markMissingTrack_of_missing _ _ (hmiss x hx hxs)
  have hcount : missingCountOf (files.map (fun f => f.path)) cat1 = 0 := by
    unfold missingCountOf
    rw [list_filter_eq_nil]
    · rfl
    · intro x hx
      by_cases hxs : x.file_path ∈ files.map (fun f => f.path)
      · rw [str_contains_of_mem hxs]
        rfl
      · rw [hmiss x hx hxs]
        simp
  unfold runScanPass
  dsimp only
  rw [hfold]
  dsimp only
  rw [hmark, hcount, List.append_nil]

/-- Witness for C4: a one-file library scanned twice; the second pass is
a no-op with all counters zero. -/
theorem c4_scan_idempotent_witness :
    runScanPass (fun _ => metaX) 8
        ((runScanPass (fun _ => metaX) 7 [trackA] [wfA]).catalog) [wfA]
      = ⟨(runScanPass (fun _ => metaX) 7 [trackA] [wfA]).catalog, 0, 0, 0⟩ :=
  (c4_scan_idempotent (fun _ => metaX) (fun _ => metaX) 7 8 [trackA] [wfA]
    (by simp) (by simp)).1

theorem progressStep_inv (total : Nat) (st : Nat × List Nat) (k : Nat)
    (hk : k * 100 / total ≤ 100) (h : ProgInv st) : ProgInv (progressStep total st k) := by
  obtain ⟨hv, hch, hlast, hle⟩ := h
  unfold progressStep
  dsimp only
  by_cases hc : st.1 + 5 ≤ k * 100 / total ∨ k * 100 / total = 100
  · rw [if_pos hc]
    refine ⟨?_, ?_, ?_, hk⟩
    · intro v hvmem
      rcases List.mem_append.mp hvmem with h1 | h2
      · exact hv v h1
      · have : v = k * 100 / total := by simpa using h2
        subst this
        rcases hc with h5 | h100
        · omega
        · omega
    · rw [List.chain'_append]
      refine ⟨hch, List.chain'_singleton _, ?_⟩
      intro x hx y hy
      have hy' : k * 100 / total = y := by simpa using hy
      subst hy'
      rcases hlast with hsome | ⟨hnil, hz⟩
      · rw [hsome] at hx
        have hx' : st.1 = x := by simpa using hx
        subst hx'
        exact hc
      · rw [hnil] at hx
        simp at hx
    · left
      simp
  · rw [if_neg hc]
    exact ⟨hv, hch, hlast, hle⟩

theorem progressStep_fires (total : Nat) (st : Nat × List Nat) (k : Nat)
    (h : st.1 + 5 ≤ k * 100 / total ∨ k * 100 / total = 100) :
    progressStep total st k = (k * 100 / total, st.2 ++ [k * 100 / total]) := by
  unfold progressStep
  dsimp only
  rw [if_pos h]

theorem progress_fold_inv (total : Nat) (ks : List Nat) (st : Nat × List Nat)
    (hks : ∀ k ∈ ks, k * 100 / total ≤ 100) (h : ProgInv st) :
    ProgInv (ks.foldl (progressStep total) st) := by
  induction ks generalizing st with
  | nil => exact h
  | cons k ks ih =>
    rw [List.foldl_cons]
    exact ih (progressStep total st k)
      (fun k' hk' => hks k' (List.mem_cons_of_mem k hk'))
      (progressStep_inv total st k (hks k (List.mem_cons_self k ks)) h)

/-- C7 counterexample: with a single walked file the only reported value
is the final 100; no 0% report happens at the start of the pass. -/
theorem c7_progress_counterexample :
    progressCalls 1 = [100] ∧ (progressCalls 1).head? ≠ some 0 := by
  constructor
  · rfl
  · intro h
    simp [progressCalls, List.range', progressStep] at h

/-- C7 (amended): the progress callback is never invoked at 0% (every
reported value is at least 5); it is always invoked with 100 at the end;
consecutive reports grow by at least 5 points or are the final 100; and
whenever processing the next file pushes the integer percentage at least
5 points above the last reported value (or to 100), the callback fires
with exactly that percentage. -/
theorem c7_progress_amended (total : Nat) :
    (∀ v ∈ progressCalls total, 5 ≤ v)
    ∧ (progressCalls total).getLast? = some 100
    ∧ List.Chain' (fun a b => a + 5 ≤ b ∨ b = 100) (progressCalls total)
    ∧ (∀ k, k < total →
        (((List.range' 1 k).foldl (progressStep total) (0, [])).1 + 5
            ≤ (k + 1) * 100 / total
          ∨ (k + 1) * 100 / total = 100) →
        (List.range' 1 (k + 1)).foldl (progressStep total) (0, [])
          = ((k + 1) * 100 / total,
             ((List.range' 1 k).foldl (progressStep total) (0, [])).2
               ++ [(k + 1) * 100 / total])) := by
  have hks : ∀ k ∈ List.range' 1 total, k * 100 / total ≤ 100 := by
    intro k hk
    rcases List.mem_range'_1.mp hk with ⟨hk1, hk2⟩
    have hkt : k ≤ total := by omega
    have h1 : k * 100 ≤ total * 100 := Nat.mul_le_mul_right 100 hkt
    have h2 : k * 100 / total ≤ total * 100 / total := Nat.div_le_div_right h1
    have htz : total ≠ 0 := by omega
    rw [Nat.mul_div_cancel_left 100 (Nat.pos_of_ne_zero htz)] at h2
    exact h2
  have hinv := progress_fold_inv total (List.range' 1 total) (0, []) hks
    ⟨by simp, by simp, Or.inr ⟨rfl, rfl⟩, by omega⟩
  obtain ⟨hv, hch, hlast, hle⟩ := hinv
  refine ⟨?_, ?_, ?_, ?_⟩
  · intro v hvm
    unfold progressCalls at hvm
    dsimp only at hvm
    rcases List.mem_append.mp hvm with h1 | h2
    · exact hv v h1
    · by_cases hlt : ((List.range' 1 total).foldl (progressStep total) (0, [])).1 < 100
      · rw [if_pos hlt] at h2
        have : v = 100 := by simpa using h2
        omega
      · rw [if_neg hlt] at h2
        simp at h2
  · unfold progressCalls
    dsimp only
    by_cases hlt : ((List.range' 1 total).foldl (progressStep total) (0, [])).1 < 100
    · rw [if_pos hlt, List.getLast?_concat]
    · rw [if_neg hlt, List.append_nil]
      rcases hlast with hsome | ⟨hnil, hz⟩
      · rw [hsome]
        congr 1
        omega
      · omega
  · unfold progressCalls
    dsimp only
    by_cases hlt : ((List.range' 1 total).foldl (progressStep total) (0, [])).1 < 100
    · rw [if_pos hlt, List.chain'_append]
      refine ⟨hch, List.chain'_singleton _, ?_⟩
      intro x hx y hy
      have hy' : (100 : Nat) = y := by simpa using hy
      subst hy'
      right
      rfl
    · rw [if_neg hlt, List.append_nil]
      exact hch
  · intro k hk hcond
    have hsplit : List.range' 1 (k + 1) = List.range' 1 k ++ [1 + 1 * k] :=
      List.range'_concat 1 k
    rw [hsplit, List.foldl_append, List.foldl_cons, List.foldl_nil]
    have h1k : 1 + 1 * k = k + 1 := by omega
    rw [h1k]
    exact progressStep_fires total _ (k + 1) hcond

/-- Claim C1 (code bug): in the delete step, with the default target
extension set, the remote file `keep.txt` is not claimed by an empty
local sync set and its extension `.txt` is outside the target set, yet
the code removes it: the delete list is every unclaimed remote file,
the computed extension never being consulted. -/
theorem c1_delete_ignores_extension :
    syncDeleteList ["old.mp3".data, "keep.txt".data] (localMapKeys [])
      = ["old.mp3".data, "keep.txt".data]
    ∧ splitextExt "keep.txt".data = ".txt".data
    ∧ ".txt".data ∉ parseTargetExts "mp3,mp4,m4a".data := by
  refine ⟨by decide, by decide, by decide⟩

/-- Claim C9: the include-pattern file contains, for every `sync=true`
track, its slash-normalized relative path and each of its ancestor lines
(the joined proper component prefixes, each with a trailing slash), and
every line of the file is one of those for some `sync=true` track —
nothing derives from `sync=false` rows. -/
theorem c9_include_lines_spec (tracks : List Track) (s : Str) :
    (∀ t ∈ tracks, t.sync = true →
      normSlash t.relative_path ∈ includeLines tracks
      ∧ ∀ a ∈ ancestorsOf t.relative_path, a ∈ includeLines tracks)
    ∧ (s ∈ includeLines tracks →
      ∃ t ∈ tracks, t.sync = true
        ∧ (s ∈ ancestorsOf t.relative_path ∨ s = normSlash t.relative_path)) := by
  constructor
  · intro t ht hs
    have htf : t ∈ tracks.filter (fun t => t.sync) :=
      List.mem_filter.mpr ⟨ht, hs⟩
    constructor
    · exact List.mem_flatMap.mpr ⟨t, htf, List.mem_append_right _ (by simp)⟩
    · intro a ha
      exact List.mem_flatMap.mpr ⟨t, htf, List.mem_append_left _ ha⟩
  · intro hmem
    obtain ⟨t, htf, hin⟩ := List.mem_flatMap.mp hmem
    obtain ⟨ht, hs⟩ := List.mem_filter.mp htf
    refine ⟨t, ht, hs, ?_⟩
    rcases List.mem_append.mp hin with h1 | h2
    · exact Or.inl h1
    · exact Or.inr (by simpa using h2)

/-- Witness for C9 on a two-row catalog (one synced, one not): the synced
row's normalized path and each of its ancestor lines are in the file. -/
theorem c9_include_lines_witness :
    normSlash trackA.relative_path ∈ includeLines [trackA, trackB]
    ∧ ∀ a ∈ ancestorsOf trackA.relative_path, a ∈ includeLines [trackA, trackB] :=
  (c9_include_lines_spec [trackA, trackB] []).1 trackA (by simp) (by decide)

/-- Claim C10 counterexample: when the configured password is the
literal `***`, the batch-synchronize log line still contains the
configured password as a command element (the mask maps it to itself). -/
theorem c10_password_mask_counterexample :
    (rsyncBatchLogged (some "h".data) none (some "***".data) none false false
        "22".data "/d".data "/tmp/inc".data ["/src".data]).isSome = true
    ∧ ((rsyncBatchLogged (some "h".data) none (some "***".data) none false false
        "22".data "/d".data "/tmp/inc".data ["/src".data]).getD []).contains
        "***".data = true := by
  refine ⟨by decide, by decide⟩

theorem not_mem_maskCmd (pwd : Str) (cmd : List Str) (h : pwd ≠ "***".data) :
    pwd ∉ maskCmd (some pwd) cmd := by
  unfold maskCmd
  intro hmem
  obtain ⟨c, _, hc⟩ := List.mem_map.mp hmem
  by_cases hcp : some c = some pwd
  · rw [if_pos hcp] at hc
    exact h hc.symm
  · rw [if_neg hcp] at hc
    exact hcp (congrArg some hc)

/-- Claim C10 (amended): both rsync log lines (batch synchronize and
per-file copy) carry the built command with every element equal to the
configured password replaced by `***`; hence, unless the password is
itself the literal `***`, the password is never an element of a logged
command. -/
theorem c10_password_never_logged (pwd : Str) (hpw : pwd ≠ "***".data) :
    (∀ host user keyPath useKey keyExists port dest includePath srcDirs L,
      rsyncBatchLogged host user (some pwd) keyPath useKey keyExists port dest
        includePath srcDirs = some L → pwd ∉ L)
    ∧ (∀ host user keyPath useKey keyExists port dest fp rel L,
      rsyncCpLogged host user (some pwd) keyPath useKey keyExists port dest fp rel
        = some L → pwd ∉ L) := by
  constructor
  · intro host user keyPath useKey keyExists port dest includePath srcDirs L hL
    obtain ⟨cmd, _, hmask⟩ := Option.map_eq_some'.mp hL
    rw [← hmask]
    exact not_mem_maskCmd pwd cmd hpw
  · intro host user keyPath useKey keyExists port dest fp rel L hL
    obtain ⟨cmd, _, hmask⟩ := Option.map_eq_some'.mp hL
    rw [← hmask]
    exact not_mem_maskCmd pwd cmd hpw

/-- Witness for C10 (amended) with password `secret` on a concrete
host/destination: `secret` is not an element of the logged command. -/
theorem c10_password_never_logged_witness :
    "secret".data ∉ ["sshpass".data, "-p".data, "***".data, "rsync".data,
      "-avz".data, "--delete-excluded".data, "--include-from".data,
      "/tmp/inc".data, "--exclude=*".data, "/src".data, "-e".data,
      "ssh -p 22".data, "h:/d".data] :=
  (c10_password_never_logged "secret".data (by decide)).1 (some "h".data) none
    none false false "22".data "/d".data "/tmp/inc".data ["/src".data] _ (by rfl)

/-- Claim C6 counterexample: with mode `foo` the sync dispatch completes
normally (result is `Except.ok`, carrying only the `Unknown mode` log
line); no error is raised to the caller, so the pass is a logged no-op
rather than a loud failure. -/
theorem c6_unknown_mode_counterexample :
    runSyncDispatch (fun _ => Except.ok ()) "foo".data
      = Except.ok ["Unknown mode: foo".data] := by
  rfl

/-- Claim C6 (amended): for every mode outside {adb, rsync, ftp}, the
sync pass runs no backend and completes normally with the single log
message `Unknown mode: <mode>`; no error reaches the caller. -/
theorem c6_unknown_mode_logged (runBackend : BackendKind → Except Str Unit)
    (mode : Str) (h1 : mode ≠ "adb".data) (h2 : mode ≠ "rsync".data)
    (h3 : mode ≠ "ftp".data) :
    runSyncDispatch runBackend mode = Except.ok ["Unknown mode: ".data ++ mode] := by
  unfold runSyncDispatch
  rw [if_neg h1, if_neg h2, if_neg h3]

/-- Witness for C6 (amended) at mode `foo` with an arbitrary backend
runner. -/
theorem c6_unknown_mode_logged_witness :
    runSyncDispatch (fun _ => Except.error "never".data) "foo".data
      = Except.ok ["Unknown mode: ".data ++ "foo".data] :=
  c6_unknown_mode_logged (fun _ => Except.error "never".data) "foo".data
    (by decide) (by decide) (by decide)

/-- Claim C8: metadata extraction never propagates an exception — any
failure escaping the body is caught and produces a returned record with
the generic error status `msg = "Error"` (first conjunct; the function's
total return type is the no-propagation itself), and an MP3 whose tag
construction reports no ID3 header yields a record with the recoverable
status `msg = "!"`, codec `mp3`, and no tag fields (title, artist,
album, album-artist, composer, track number all unset), so the file is
still cataloged and the scan continues. -/
theorem c8_extract_never_raises (env : TagEnv) (p : Str) :
    (∀ d, extractBody env p = Except.error d →
      extractMetadata env p = finishMeta { d with msg := some "Error".data })
    ∧ (lowerStr (splitextExt p) = ".mp3".data →
       env.easyID3 p = Except.error TagErr.noHeader →
       (extractMetadata env p).msg = some "!".data
       ∧ (extractMetadata env p).title = none
       ∧ (extractMetadata env p).artist = none
       ∧ (extractMetadata env p).album = none
       ∧ (extractMetadata env p).album_artist = none
       ∧ (extractMetadata env p).composer = none
       ∧ (extractMetadata env p).track_num = none
       ∧ (extractMetadata env p).codec = some "mp3".data) := by
  constructor
  · intro d hb
    unfold extractMetadata
    rw [hb]
  · intro hext hhdr
    cases hmp3 : env.mp3Info p with
    | error e =>
      have hb : extractBody env p = Except.ok
          { initDataW p with
            codec := some "mp3".data
            msg := some "!".data } := by
        simp [extractBody, hext, hhdr, hmp3, initDataW]
      unfold extractMetadata
      rw [hb]
      simp [finishMeta, initDataW]
    | ok n =>
      have hb : extractBody env p = Except.ok
          { initDataW p with
            codec := some "mp3".data
            msg := some "!".data
            duration := some (Sum.inr n) } := by
        simp [extractBody, hext, hhdr, hmp3, initDataW]
      unfold extractMetadata
      rw [hb]
      simp [finishMeta, initDataW]

/-- Witness for C8 at the concrete path `/m/x.mp3` under `env0`. -/
theorem c8_extract_never_raises_witness :
    (extractMetadata env0 "/m/x.mp3".data).msg = some "!".data
    ∧ (extractMetadata env0 "/m/x.mp3".data).title = none
    ∧ (extractMetadata env0 "/m/x.mp3".data).artist = none
    ∧ (extractMetadata env0 "/m/x.mp3".data).album = none
    ∧ (extractMetadata env0 "/m/x.mp3".data).album_artist = none
    ∧ (extractMetadata env0 "/m/x.mp3".data).composer = none
    ∧ (extractMetadata env0 "/m/x.mp3".data).track_num = none
    ∧ (extractMetadata env0 "/m/x.mp3".data).codec = some "mp3".data :=
  (c8_extract_never_raises env0 "/m/x.mp3".data).2 (by decide) rfl

/-- Witness for C7 (amended) at a 20-file scan: every reported value is
at least 5, so 0 is never reported. -/
theorem c7_progress_amended_witness :
    ∀ v ∈ progressCalls 20, 5 ≤ v :=
  (c7_progress_amended 20).1

end Syncterra

